import Mathlib

/-!
Shallow embedding of the FuckBaggr personal-finance scripts.

Covered source files:
* `find_sum.py` - brute-force reconciliation search over near-full-size
  combinations of a hard-coded pool of deposits, transfers and dividends.
* `parse_cash.py` - locates cash-movement tables in a brokerage HTML
  statement by keyword and header heuristics.
* `parse_ibkr.py` - locates transaction tables by a full-text heuristic.
* `scripts/yfinance_server.py` - a small HTTP proxy exposing `/pe`,
  `/search` and `/health`.

Python floats carrying currency amounts are embedded as rationals; the
inputs are exact two-decimal literals and all comparisons in the claims
use the 0.05 tolerance, far coarser than double rounding error, so the
rational model agrees with the float run on every comparison performed.
Python exceptions are embedded as `Except String`.
-/

/-! ## Python string primitives

`str.split(",")`, `str.strip()` and the substring test `needle in hay`
are embedded character-listwise so that every use is kernel-computable.
-/

/-- Auxiliary splitter: `splitCommaAux cs acc` walks `cs`, `acc` holding the
reversed current segment, and cuts a segment at every comma, mirroring
CPython `str.split(",")` (which yields `[""]` on the empty string and keeps
empty segments). -/
def splitCommaAux : List Char → List Char → List (List Char)
  | [], acc => [acc.reverse]
  | c :: cs, acc =>
    if c = ',' then acc.reverse :: splitCommaAux cs [] else splitCommaAux cs (c :: acc)

/-- Python `raw.split(",")`. -/
def pysplit (s : String) : List String :=
  (splitCommaAux s.data []).map (fun l => String.mk l)

/-- Python `s.strip()`: drop whitespace from both ends. -/
def pystrip (s : String) : String :=
  String.mk (((s.data.dropWhile Char.isWhitespace).reverse.dropWhile Char.isWhitespace).reverse)

/-- Python substring test `needle in hay`. -/
def pyContains (hay needle : String) : Bool :=
  hay.data.tails.any (fun t => needle.data.isPrefixOf t)

/-! ## `find_sum.py` -/

/-- The 19 hard-coded deposit amounts (`deposits` in `find_sum.py`). -/
def deposits : List ℚ :=
  [5.0, 30.0, 700.0, 499.98, 40.85, 489.93, 500.0, 500.0, 1000.0, 302.0,
   500.0, 83.0, 5.0, 10.0, 500.62, 2.0, 1503.34, 107.76, 21.37]

/-- The 5 hard-coded transfer amounts (`transfers` in `find_sum.py`). -/
def transfers : List ℚ := [372.48, 5941.50, 1479.20, 1125.62, 1027.88]

/-- The 2 hard-coded dividend amounts (`divs` in `find_sum.py`). -/
def divs : List ℚ := [5.44, 8.16]

/-- `all_vals = deposits + transfers + divs`. -/
def all_vals : List ℚ := deposits ++ transfers ++ divs

/-- `target = 16809.66`. -/
def target : ℚ := 16809.66

/-- The absolute tolerance `0.05` of the match test in `find_sum.py`. -/
def tolerance : ℚ := 0.05

/-- `itertools.combinations l r`: all length-`r` subsequences of `l`, in the
order itertools yields them (lexicographic over the input positions: every
combination containing the head precedes every combination omitting it). -/
def combinations {α : Type} : Nat → List α → List (List α)
  | 0, _ => [[]]
  | _ + 1, [] => []
  | r + 1, x :: xs => ((combinations r xs).map (fun c => x :: c)) ++ combinations (r + 1) xs

/-- The subset sizes tried by `find_sum.py`: `range(len(all_vals)-2, len(all_vals)+1)`,
computed in `Int` because Python's `range` admits negative bounds. -/
def rValues (n : Nat) : List Int := [(n : Int) - 2, (n : Int) - 1, (n : Int)]

/-- One call `itertools.combinations(pool, r)`: CPython raises `ValueError`
when `r` is negative, embedded as `Except.error`. -/
def combosAt (pool : List ℚ) (r : Int) : Except String (List (List ℚ)) :=
  if r < 0 then Except.error "r must be non-negative"
  else Except.ok (combinations r.toNat pool)

/-- The match test `abs(sum(c) - target) < 0.05` of `find_sum.py`. -/
def withinTol (t : ℚ) (c : List ℚ) : Bool := decide (|c.sum - t| < tolerance)

/-- One iteration of the outer `for r in range(...)` loop: enumerate the
combinations of size `r` and append the matching ones to the accumulator. -/
def findSumStep (pool : List ℚ) (t : ℚ) (acc : List (List ℚ)) (r : Int) :
    Except String (List (List ℚ)) :=
  (combosAt pool r).map (fun cs => acc ++ cs.filter (withinTol t))

/-- The whole search loop of `find_sum.py`: the list of combinations printed
as `MATCH`, in print order, or the `ValueError` aborting the script. -/
def findSum (pool : List ℚ) (t : ℚ) : Except String (List (List ℚ)) :=
  (rValues pool.length).foldlM (findSumStep pool t) []

/-- One iteration of the outer loop with the match filter removed: every
combination the loop examines at size `r`, appended to the accumulator. -/
def examinedStep (pool : List ℚ) (acc : List (List ℚ)) (r : Int) :
    Except String (List (List ℚ)) :=
  (combosAt pool r).map (fun cs => acc ++ cs)

/-- Every combination examined by the search loop of `find_sum.py`, in
enumeration order, or the `ValueError` aborting the script. -/
def findSumExamined (pool : List ℚ) : Except String (List (List ℚ)) :=
  (rValues pool.length).foldlM (examinedStep pool) []

/-! ## HTML table model shared by `parse_cash.py` and `parse_ibkr.py`

A BeautifulSoup `<table>` element is embedded as the data the scripts
read from it: its full concatenated text (`t.get_text()`) and its `<tr>`
rows, each row a list of cells tagged `"th"` or `"td"` carrying text.
`get_text(strip=True)` on a cell is embedded as `pystrip` of its text.
-/

/-- A table cell: its tag name (`"th"` or `"td"`) and its raw text. -/
structure Cell where
  tag : String
  text : String

/-- A `<table>` element as the scripts observe it. -/
structure HtmlTable where
  fullText : String
  rows : List (List Cell)

/-- `[c.get_text(strip=True) for c in row.find_all(['th', 'td'])]`. -/
def headerTexts (r : List Cell) : List String :=
  (r.filter (fun c => c.tag == "th" || c.tag == "td")).map (fun c => pystrip c.text)

/-- `[td.get_text(strip=True) for td in row.find_all('td')]`. -/
def rowTdTexts (r : List Cell) : List String :=
  (r.filter (fun c => c.tag == "td")).map (fun c => pystrip c.text)

/-! ## `parse_cash.py` -/

/-- The cash-movement keyword test of `parse_cash.py`:
`'Transfert électronique' in text or 'Déboursement' in text`. -/
def cashKeywordHit (t : HtmlTable) : Bool :=
  pyContains t.fullText "Transfert électronique" || pyContains t.fullText "Déboursement"

/-- The per-table body of the loop in `parse_cash.py`: `some` of the printed
data rows (`rows[1:]`, `td` cells only) when the table is reported as a
candidate cash table, `none` when the loop moves on silently. -/
def locateCash (t : HtmlTable) : Option (List (List String)) :=
  bif cashKeywordHit t then
    match t.rows with
    | [] => none
    | r0 :: rest =>
      if "Date" ∈ headerTexts r0 ∧ "Description" ∈ headerTexts r0 ∧ "Montant" ∈ headerTexts r0
      then some (rest.map rowTdTexts)
      else none
  else none

/-- The full run of `parse_cash.py` over the document's tables, in document
order: the concatenated candidate dumps. -/
def runCash (doc : List HtmlTable) : List (List (List String)) :=
  doc.filterMap locateCash

/-- `parse_cash.py` run with the document tree threaded through explicitly:
`get_text` and `find_all` are read-only, so the tree comes back unchanged. -/
def runCashST (doc : List HtmlTable) : List (List (List String)) × List HtmlTable :=
  (runCash doc, doc)

/-! ## `parse_ibkr.py` -/

/-- First branch of the classifier in `parse_ibkr.py`:
`"Symbole" in text and ("Achat" in text or "Vente" in text or "Dépôts" in text or "Date" in text)`. -/
def ibkrCond1 (t : HtmlTable) : Bool :=
  pyContains t.fullText "Symbole" &&
    (pyContains t.fullText "Achat" || pyContains t.fullText "Vente" ||
     pyContains t.fullText "Dépôts" || pyContains t.fullText "Date")

/-- Second branch (the `elif`) of the classifier in `parse_ibkr.py`:
`"Date" in text and "Montant" in text` - both tested on the FULL text. -/
def ibkrCond2 (t : HtmlTable) : Bool :=
  pyContains t.fullText "Date" && pyContains t.fullText "Montant"

/-- Whether the `if`/`elif` chain of `parse_ibkr.py` calls `summarize_table`
on the table. -/
def ibkrClassified (t : HtmlTable) : Bool :=
  bif ibkrCond1 t then true else bif ibkrCond2 t then true else false

/-- `summarize_table` of `parse_ibkr.py`: `none` when the table has no rows
(early `return`), otherwise the printed header texts and the cell lists of
`rows[1:4]` that are non-empty. -/
def summarize_table (t : HtmlTable) : Option (List String × List (List String)) :=
  match t.rows with
  | [] => none
  | r0 :: rest =>
    some (headerTexts r0, ((rest.take 3).map rowTdTexts).filter (fun cs => !cs.isEmpty))

/-- The per-table body of the loop in `parse_ibkr.py`. -/
def locateIbkr (t : HtmlTable) : Option (List String × List (List String)) :=
  bif ibkrClassified t then summarize_table t else none

/-- The full run of `parse_ibkr.py` over the document's tables. -/
def runIbkr (doc : List HtmlTable) : List (List String × List (List String)) :=
  doc.filterMap locateIbkr

/-- `parse_ibkr.py` run with the document tree threaded through explicitly. -/
def runIbkrST (doc : List HtmlTable) :
    List (List String × List (List String)) × List HtmlTable :=
  (runIbkr doc, doc)

/-- The transaction-table predicate exactly as claim C2 states it: the
symbol/buy-sell-deposits-date test on the full text, or date AND amount
both present in the HEADER ROW (spec wording; the code tests the full
text instead). -/
def specTransactionClaim (t : HtmlTable) : Bool :=
  (pyContains t.fullText "Symbole" &&
    (pyContains t.fullText "Achat" || pyContains t.fullText "Vente" ||
     pyContains t.fullText "Dépôts" || pyContains t.fullText "Date"))
  || (match t.rows with
      | [] => false
      | r0 :: _ => decide ("Date" ∈ headerTexts r0) && decide ("Montant" ∈ headerTexts r0))

/-- The amended transaction-table predicate: as C2, but with the second
disjunct tested on the full concatenated text, as the code does. -/
def transactionFullTextPred (t : HtmlTable) : Bool :=
  (pyContains t.fullText "Symbole" &&
    (pyContains t.fullText "Achat" || pyContains t.fullText "Vente" ||
     pyContains t.fullText "Dépôts" || pyContains t.fullText "Date"))
  || (pyContains t.fullText "Date" && pyContains t.fullText "Montant")

/-- Counterexample table for C2: a summary table whose title cell reads
"Solde Date Montant"; its full text contains both keywords but its header
row is the single cell "Solde Date Montant", not the two cells
"Date" and "Montant". -/
def summaryTable : HtmlTable :=
  { fullText := "Solde Date Montant Autre Chose",
    rows := [[⟨"td", "Solde Date Montant"⟩], [⟨"td", "Autre"⟩], [⟨"td", "Chose"⟩]] }

/-! ## `scripts/yfinance_server.py`

The JSON values the handlers build are embedded in a small inductive.
`urlparse`/`parse_qs` glue is outside the modelled handlers: a missing or
empty query parameter reaches the handler as `""` (CPython `parse_qs`
drops blank values and the code falls back to `[""][0]`). The network
calls (`yf.Ticker(t).info`, the Yahoo search request) are oracles of type
`String → Except String _`: `Except.error` is a raised exception.
-/

/-- JSON values as built by the server. -/
inductive Json where
  | null : Json
  | bool : Bool → Json
  | num : ℚ → Json
  | str : String → Json
  | arr : List Json → Json
  | obj : List (String × Json) → Json

/-- An HTTP response: the status passed to `_set_headers` and the JSON body
written to `wfile`. -/
structure HttpResponse where
  status : Nat
  body : Json

/-- Field access on a JSON object. -/
def getField (j : Json) (k : String) : Option Json :=
  match j with
  | Json.obj kvs => kvs.lookup k
  | _ => none

/-- The keys of a JSON object, in serialization order. -/
def objKeys (j : Json) : List String :=
  match j with
  | Json.obj kvs => kvs.map (fun p => p.1)
  | _ => []

/-- Python dict assignment `d[k] = v`: overwrite in place if the key exists,
else append (insertion order preserved). -/
def dictInsert (d : List (String × Json)) (k : String) (v : Json) : List (String × Json) :=
  bif d.any (fun p => p.1 == k) then
    d.map (fun p => bif p.1 == k then (k, v) else p)
  else d ++ [(k, v)]

/-- `[t.strip() for t in raw.split(",") if t.strip()]` in `_handle_pe`. -/
def parseTickers (raw : String) : List String :=
  ((pysplit raw).map pystrip).filter (fun s => s ≠ "")

/-- Python truthiness of a JSON value (`None`, `""`, `0`, `False`, `[]` and
`{}` are falsy). -/
def jsonFalsy (j : Json) : Bool :=
  match j with
  | Json.null => true
  | Json.bool b => !b
  | Json.num q => decide (q = 0)
  | Json.str s => s == ""
  | Json.arr xs => xs.isEmpty
  | Json.obj kvs => kvs.isEmpty

/-- Python `a or b` where `a` is an optional dict lookup. -/
def pyOr (a : Option Json) (b : Json) : Json :=
  match a with
  | none => b
  | some v => bif jsonFalsy v then b else v

/-- `v if isinstance(v, (int, float)) else None` applied to `info.get(key)`:
missing and non-numeric values become `None`; Python `bool` is an `int`
subclass, so booleans pass the `isinstance` test. -/
def numFilter (a : Option Json) : Json :=
  match a with
  | some (Json.num q) => Json.num q
  | some (Json.bool b) => Json.bool b
  | _ => Json.null

/-- The all-`None` entry written by the `except` branch of `_handle_pe`. -/
def nullPEEntry : Json :=
  Json.obj [("trailingPE", Json.null), ("forwardPE", Json.null),
            ("trailingEps", Json.null), ("forwardEps", Json.null)]

/-- The body of the per-ticker loop in `_handle_pe`: on success, the four
fields of `yf.Ticker(t).info` filtered to numbers; on any exception, the
all-`None` entry. -/
def peEntry (fetch : String → Except String (List (String × Json))) (t : String) : Json :=
  match fetch t with
  | Except.ok info =>
    Json.obj [("trailingPE", numFilter (info.lookup "trailingPE")),
              ("forwardPE", numFilter (info.lookup "forwardPE")),
              ("trailingEps", numFilter (info.lookup "trailingEps")),
              ("forwardEps", numFilter (info.lookup "forwardEps"))]
  | Except.error _ => nullPEEntry

/-- The `result` dict built by `_handle_pe` over the surviving tickers. -/
def peResultDict (fetch : String → Except String (List (String × Json)))
    (ts : List String) : List (String × Json) :=
  ts.foldl (fun d t => dictInsert d t (peEntry fetch t)) []

/-- `_handle_pe`: 400 with an error body when no ticker survives parsing,
otherwise 200 with the per-ticker result object. -/
def handle_pe (fetch : String → Except String (List (String × Json)))
    (raw : String) : HttpResponse :=
  if parseTickers raw = [] then
    ⟨400, Json.obj [("error", Json.str "missing tickers param")]⟩
  else
    ⟨200, Json.obj (peResultDict fetch (parseTickers raw))⟩

/-- One quote of the upstream search response mapped to the proxy's output
shape by `_handle_search`. -/
def quoteResult (q : List (String × Json)) : Json :=
  Json.obj [("symbol", (q.lookup "symbol").getD (Json.str "")),
            ("name", pyOr (q.lookup "longname") ((q.lookup "shortname").getD (Json.str ""))),
            ("exchange", (q.lookup "exchDisp").getD (Json.str "")),
            ("type", (q.lookup "quoteType").getD (Json.str ""))]

/-- `_handle_search`: 400 when the stripped query is empty (before any
upstream call), 200 with the mapped quotes on upstream success, 500 with
the exception text on upstream failure. -/
def handle_search (upstream : String → Except String (List (List (String × Json))))
    (rawQ : String) : HttpResponse :=
  if pystrip rawQ = "" then
    ⟨400, Json.obj [("error", Json.str "missing q param")]⟩
  else
    match upstream (pystrip rawQ) with
    | Except.ok quotes => ⟨200, Json.arr (quotes.map quoteResult)⟩
    | Except.error e => ⟨500, Json.obj [("error", Json.str e)]⟩

/-- An oracle whose every fetch raises, for the concrete server scenarios. -/
def fetchAlwaysErr : String → Except String (List (String × Json)) :=
  fun _ => Except.error "no data"

/-- First-occurrence deduplication with an accumulator of already-seen keys:
the key order of a Python dict filled from a list. -/
def dedupSeen : List String → List String → List String
  | [], _ => []
  | t :: ts, seen =>
    if t ∈ seen then dedupSeen ts seen else t :: dedupSeen ts (t :: seen)

/-- The distinct surviving ticker segments, first occurrence first. -/
def dedupFirst (ts : List String) : List String := dedupSeen ts []

/-! ## Concrete scenario data used by the witness theorems -/

/-- A realistic cash-movement table: matching keyword in the body, header
row `Date / Description / Montant`, one data row. -/
def cashWitnessTable : HtmlTable :=
  { fullText := "Dépôts et retraits Date Description Montant 2025-03-01 Transfert électronique 5.00",
    rows := [[⟨"th", "Date"⟩, ⟨"th", "Description"⟩, ⟨"th", "Montant"⟩],
             [⟨"td", "2025-03-01"⟩, ⟨"td", "Transfert électronique"⟩, ⟨"td", "5.00"⟩]] }

/-- A table whose text matches every keyword heuristic but which has no
rows at all. -/
def emptyRowTable : HtmlTable :=
  { fullText := "Transfert électronique Symbole Achat Date Montant Description",
    rows := [] }

/-- A search oracle whose upstream call fails. -/
def searchOracleDown : String → Except String (List (List (String × Json))) :=
  fun _ => Except.error "timed out"

/-- A search oracle whose upstream call returns one quote. -/
def searchOracleUp : String → Except String (List (List (String × Json))) :=
  fun q => Except.ok [[("symbol", Json.str q)]]

/-! ## Lemmas about the reconciliation search -/

/-- Bind on `Except` evaluated at a success value. -/
theorem except_bind_ok {α β : Type} (a : α) (f : α → Except String β) :
    (Except.ok a >>= f : Except String β) = f a := rfl

/-- Every combination produced by `combinations r l` is a subsequence of `l`
of length exactly `r`. -/
theorem combinations_sublist_length {α : Type} :
    ∀ (l : List α) (r : Nat) (c : List α),
      c ∈ combinations r l → c.Sublist l ∧ c.length = r := by
  intro l
  induction l with
  | nil =>
    intro r c hc
    cases r with
    | zero =>
      simp only [combinations, List.mem_singleton] at hc
      subst hc
      exact ⟨List.Sublist.refl _, rfl⟩
    | succ r => simp [combinations] at hc
  | cons x xs ih =>
    intro r c hc
    cases r with
    | zero =>
      simp only [combinations, List.mem_singleton] at hc
      subst hc
      exact ⟨List.nil_sublist _, rfl⟩
    | succ r =>
      simp only [combinations, List.mem_append] at hc
      rcases hc with h | h
      · rcases List.mem_map.mp h with ⟨c', hc', rfl⟩
        obtain ⟨hs, hl⟩ := ih r c' hc'
        exact ⟨List.Sublist.cons₂ x hs, by simp [hl]⟩
      · obtain ⟨hs, hl⟩ := ih (r + 1) c h
        exact ⟨List.Sublist.cons x hs, hl⟩

/-- When the pool consists of non-negative values and its total plus the
tolerance does not reach the target, no examined combination passes the
match test. -/
theorem withinTol_filter_nil (pool : List ℚ) (t : ℚ)
    (hnn : ∀ a ∈ pool, 0 ≤ a) (hle : pool.sum + tolerance ≤ t) :
    ∀ r : Nat, (combinations r pool).filter (withinTol t) = [] := by
  intro r
  apply List.filter_eq_nil_iff.mpr
  intro c hc
  obtain ⟨hs, _⟩ := combinations_sublist_length pool r c hc
  have hsum : c.sum ≤ pool.sum := List.Sublist.sum_le_sum hs hnn
  have habs : ¬ (|c.sum - t| < tolerance) := by
    rw [abs_sub_comm]
    intro hlt
    have h1 : t - c.sum ≤ |t - c.sum| := le_abs_self _
    linarith
  simp [withinTol, habs]

/-- A loop iteration over an empty accumulator produces nothing when the
pool total falls short of the target as in `withinTol_filter_nil`. -/
theorem findSumStep_nil (pool : List ℚ) (t : ℚ)
    (hnn : ∀ a ∈ pool, 0 ≤ a) (hle : pool.sum + tolerance ≤ t)
    (r : Int) (hr : ¬ r < 0) :
    findSumStep pool t [] r = Except.ok [] := by
  simp [findSumStep, combosAt, hr, Except.map,
        withinTol_filter_nil pool t hnn hle]

/-- The full search of `find_sum.py` reports nothing when the pool holds at
least two non-negative values whose total plus the tolerance does not reach
the target. -/
theorem findSum_eq_ok_nil (pool : List ℚ) (t : ℚ) (h2 : 2 ≤ pool.length)
    (hnn : ∀ a ∈ pool, 0 ≤ a) (hle : pool.sum + tolerance ≤ t) :
    findSum pool t = Except.ok [] := by
  have hr1 : ¬ ((pool.length : Int) - 2 < 0) := by omega
  have hr2 : ¬ ((pool.length : Int) - 1 < 0) := by omega
  have hr3 : ¬ ((pool.length : Int) < 0) := by omega
  rw [findSum, rValues, List.foldlM_cons,
      findSumStep_nil pool t hnn hle _ hr1, except_bind_ok, List.foldlM_cons,
      findSumStep_nil pool t hnn hle _ hr2, except_bind_ok, List.foldlM_cons,
      findSumStep_nil pool t hnn hle _ hr3, except_bind_ok, List.foldlM_nil]
  rfl

/-- The length of the hard-coded pool. -/
theorem all_vals_length : all_vals.length = 26 := rfl

/-- Every hard-coded pool entry is non-negative. -/
theorem all_vals_nonneg : ∀ a ∈ all_vals, (0 : ℚ) ≤ a := by
  simp only [all_vals, deposits, transfers, divs, List.forall_mem_append,
             List.forall_mem_cons, List.forall_mem_nil, and_true]
  norm_num

/-- The hard-coded pool sums to 16761.13, short of the 16809.66 target. -/
theorem all_vals_sum : all_vals.sum = 16761.13 := by
  simp only [all_vals, deposits, transfers, divs, List.sum_append,
             List.sum_cons, List.sum_nil]
  norm_num

/-- On the hard-coded pool the search finds no match. -/
theorem all_vals_search_empty : findSum all_vals target = Except.ok [] := by
  apply findSum_eq_ok_nil
  · rw [all_vals_length]; omega
  · exact all_vals_nonneg
  · rw [all_vals_sum, tolerance, target]; norm_num

/-- Bind on `Except` evaluated at an error value. -/
theorem except_bind_err {α β : Type} (e : String) (f : α → Except String β) :
    (Except.error e >>= f : Except String β) = Except.error e := rfl

/-- Invariant of the search loop: a combination in the final report either
was already in the accumulator or passes the tolerance test. -/
theorem findSum_mem_aux (pool : List ℚ) (t : ℚ) :
    ∀ (rs : List Int) (acc ms : List (List ℚ)),
      rs.foldlM (findSumStep pool t) acc = Except.ok ms →
      ∀ c ∈ ms, c ∈ acc ∨ |c.sum - t| < tolerance := by
  intro rs
  induction rs with
  | nil =>
    intro acc ms h c hc
    rw [List.foldlM_nil] at h
    have h' : Except.ok acc = Except.ok ms := h
    injection h' with h''
    subst h''
    exact Or.inl hc
  | cons r rs ih =>
    intro acc ms h c hc
    rw [List.foldlM_cons] at h
    cases hcomb : combosAt pool r with
    | error e =>
      have hstep : findSumStep pool t acc r = Except.error e := by
        simp [findSumStep, hcomb, Except.map]
      rw [hstep, except_bind_err] at h
      cases h
    | ok cs =>
      have hstep : findSumStep pool t acc r = Except.ok (acc ++ cs.filter (withinTol t)) := by
        simp [findSumStep, hcomb, Except.map]
      rw [hstep, except_bind_ok] at h
      rcases ih _ _ h c hc with hacc | hP
      · rcases List.mem_append.mp hacc with h1 | h2
        · exact Or.inl h1
        · right
          have := (List.mem_filter.mp h2).2
          simpa [withinTol] using this
      · exact Or.inr hP

/-- Evaluation of the search on the two-element pool `[1, 2]` with target 3:
only the full combination matches. -/
theorem findSum_pair : findSum [(1 : ℚ), 2] 3 = Except.ok [[1, 2]] := by
  have h0 : withinTol 3 ([] : List ℚ) = false := by
    apply decide_eq_false
    intro hlt
    rw [List.sum_nil, abs_of_nonpos (by norm_num : (0 : ℚ) - 3 ≤ 0), tolerance] at hlt
    norm_num at hlt
  have h1 : withinTol 3 [(1 : ℚ)] = false := by
    apply decide_eq_false
    intro hlt
    rw [List.sum_cons, List.sum_nil,
        abs_of_nonpos (by norm_num : (1 : ℚ) + 0 - 3 ≤ 0), tolerance] at hlt
    norm_num at hlt
  have h2 : withinTol 3 [(2 : ℚ)] = false := by
    apply decide_eq_false
    intro hlt
    rw [List.sum_cons, List.sum_nil,
        abs_of_nonpos (by norm_num : (2 : ℚ) + 0 - 3 ≤ 0), tolerance] at hlt
    norm_num at hlt
  have h3 : withinTol 3 [(1 : ℚ), 2] = true := by
    apply decide_eq_true
    rw [List.sum_cons, List.sum_cons, List.sum_nil,
        show (1 : ℚ) + (2 + 0) - 3 = 0 by norm_num, abs_zero, tolerance]
    norm_num
  have c0 : combosAt [(1 : ℚ), 2] 0 = Except.ok [[]] := rfl
  have c1 : combosAt [(1 : ℚ), 2] 1 = Except.ok [[1], [2]] := rfl
  have c2 : combosAt [(1 : ℚ), 2] 2 = Except.ok [[1, 2]] := rfl
  have s0 : findSumStep [(1 : ℚ), 2] 3 [] 0 = Except.ok [] := by
    rw [findSumStep, c0]
    simp [Except.map, List.filter_cons, h0]
  have s1 : findSumStep [(1 : ℚ), 2] 3 [] 1 = Except.ok [] := by
    rw [findSumStep, c1]
    simp [Except.map, List.filter_cons, h1, h2]
  have s2 : findSumStep [(1 : ℚ), 2] 3 [] 2 = Except.ok [[1, 2]] := by
    rw [findSumStep, c2]
    simp [Except.map, List.filter_cons, h3]
  have hrv : rValues ([(1 : ℚ), 2].length) = [0, 1, 2] := by decide
  rw [findSum, hrv, List.foldlM_cons, s0, except_bind_ok, List.foldlM_cons, s1,
      except_bind_ok, List.foldlM_cons, s2, except_bind_ok, List.foldlM_nil]
  rfl

/-! ## Lemmas for the enumeration-order claim -/

/-- `combinations` commutes with mapping a function over the pool. -/
theorem combinations_map {α β : Type} (f : α → β) :
    ∀ (l : List α) (r : Nat),
      combinations r (l.map f) = (combinations r l).map (List.map f) := by
  intro l
  induction l with
  | nil => intro r; cases r <;> simp [combinations]
  | cons x xs ih =>
    intro r
    cases r with
    | zero => simp [combinations]
    | succ r =>
      simp only [List.map_cons, combinations, ih, List.map_append, List.map_map]
      congr 1

/-- A list is recovered by indexing itself along `List.range`. -/
theorem range_map_getD (l : List ℚ) :
    (List.range l.length).map (fun i => l.getD i 0) = l := by
  induction l with
  | nil => simp
  | cons x xs ih =>
    rw [List.length_cons, List.range_succ_eq_map, List.map_cons, List.map_map]
    have hcomp : ((fun i => (x :: xs).getD i 0) ∘ Nat.succ) = fun i => xs.getD i 0 := by
      funext i
      simp [List.getD_cons_succ]
    rw [List.getD_cons_zero, hcomp, ih]

/-- Over a strictly increasing pool of indices, `combinations` yields its
combinations in strict lexicographic order. -/
theorem combinations_pairwise_lex :
    ∀ (l : List Nat), l.Pairwise (· < ·) → ∀ (r : Nat),
      (combinations r l).Pairwise (List.Lex (· < ·)) := by
  intro l
  induction l with
  | nil =>
    intro _ r
    cases r <;> simp [combinations]
  | cons x xs ih =>
    intro hp r
    rw [List.pairwise_cons] at hp
    obtain ⟨hx, hxs⟩ := hp
    cases r with
    | zero => simp [combinations]
    | succ r =>
      simp only [combinations]
      apply List.pairwise_append.mpr
      refine ⟨?_, ih hxs (r + 1), ?_⟩
      · exact List.Pairwise.map _ (fun a b hab => List.Lex.cons hab) (ih hxs r)
      · intro a ha b hb
        rcases List.mem_map.mp ha with ⟨c, _, rfl⟩
        obtain ⟨hbs, hbl⟩ := combinations_sublist_length xs (r + 1) b hb
        cases b with
        | nil => simp at hbl
        | cons y b' =>
          have hy : y ∈ xs := hbs.subset (List.mem_cons_self y b')
          exact List.Lex.rel (hx y hy)

/-- An examined-loop iteration at a non-negative size appends that size's
combinations to the accumulator. -/
theorem examinedStep_ok (pool : List ℚ) (acc : List (List ℚ)) (r : Int) (hr : ¬ r < 0) :
    examinedStep pool acc r = Except.ok (acc ++ combinations r.toNat pool) := by
  simp [examinedStep, combosAt, hr, Except.map]

/-- With at least two pool elements, the loop examines exactly the sizes
`N-2`, `N-1`, `N` in this order. -/
theorem findSumExamined_eq (pool : List ℚ) (h2 : 2 ≤ pool.length) :
    findSumExamined pool =
      Except.ok (combinations (pool.length - 2) pool ++ combinations (pool.length - 1) pool
        ++ combinations pool.length pool) := by
  have hr1 : ¬ ((pool.length : Int) - 2 < 0) := by omega
  have hr2 : ¬ ((pool.length : Int) - 1 < 0) := by omega
  have hr3 : ¬ ((pool.length : Int) < 0) := by omega
  have e1 : ((pool.length : Int) - 2).toNat = pool.length - 2 := by omega
  have e2 : ((pool.length : Int) - 1).toNat = pool.length - 1 := by omega
  have e3 : ((pool.length : Int)).toNat = pool.length := by omega
  rw [findSumExamined, rValues, List.foldlM_cons, examinedStep_ok pool [] _ hr1,
      except_bind_ok, List.foldlM_cons, examinedStep_ok pool _ _ hr2, except_bind_ok,
      List.foldlM_cons, examinedStep_ok pool _ _ hr3, except_bind_ok, List.foldlM_nil,
      e1, e2, e3]
  simp only [List.nil_append, List.append_assoc]
  rfl

/-! ## Claims about the reconciliation search -/

/-- C1 counterexample. The claim asserts the search on the hard-coded pool
of 19 deposits, 5 transfers and 2 dividends with target 16809.66 reports at
least one subset; in fact the run reports no subset at all (the printed
output is only the completion marker). -/
theorem c1_counterexample_no_match : findSum all_vals target = Except.ok [] :=
  all_vals_search_empty

/-- C1, amended: running the search on the hard-coded pool with target
16809.66 and tolerance 0.05 reports NO subset - the whole pool sums to
16761.13, which is 48.53 short of the target, so no combination of sizes
24 to 26 can come within the tolerance. -/
theorem c1_amended_search_reports_nothing :
    findSum all_vals target = Except.ok [] ∧ all_vals.sum = 16761.13 :=
  ⟨all_vals_search_empty, all_vals_sum⟩

/-- C4. Every subset the reconciliation search reports as a MATCH satisfies
`|sum(S) - T| < 0.05`; no subset violating the tolerance is ever reported. -/
theorem c4_reported_within_tolerance (pool : List ℚ) (t : ℚ) (ms : List (List ℚ))
    (hok : findSum pool t = Except.ok ms) (c : List ℚ) (hc : c ∈ ms) :
    |c.sum - t| < 0.05 := by
  rcases findSum_mem_aux pool t (rValues pool.length) [] ms hok c hc with h | h
  · exact absurd h (List.not_mem_nil c)
  · exact h

/-- Witness for C4: on the pool `[1, 2]` with target 3 the search reports
`[1, 2]`, and that subset indeed sums to within 0.05 of the target. -/
theorem c4_reported_within_tolerance_witness :
    |(List.sum [(1 : ℚ), 2]) - 3| < 0.05 :=
  c4_reported_within_tolerance [(1 : ℚ), 2] 3 [[1, 2]] findSum_pair [1, 2] (by simp)

/-- C5 counterexample. The claim quantifies over every pool, but on a pool
of size 1 the first loop iteration calls `itertools.combinations` with
`r = -1`, which raises `ValueError`: the script aborts having examined no
combination at all (in particular none of sizes 0 and 1). -/
theorem c5_counterexample_small_pool_error :
    findSumExamined [(0 : ℚ)] = Except.error "r must be non-negative" := rfl

/-- C5, amended: for every pool of size `N ≥ 2` the search examines exactly
the combinations of sizes `N-2`, `N-1` and `N`, in increasing size order,
each size enumerated lexicographically over the pool's input positions with
no reordering (each combination is a subsequence of the pool); for `N < 2`
the script instead aborts with a `ValueError` before examining anything. -/
theorem c5_amended_examined_sizes (pool : List ℚ) (h2 : 2 ≤ pool.length) :
    findSumExamined pool =
      Except.ok (combinations (pool.length - 2) pool ++ combinations (pool.length - 1) pool
        ++ combinations pool.length pool)
    ∧ (∀ (r : Nat) (c : List ℚ), c ∈ combinations r pool → c.Sublist pool ∧ c.length = r)
    ∧ (∀ r : Nat, combinations r pool
        = (combinations r (List.range pool.length)).map
            (fun idxs => idxs.map (fun i => pool.getD i 0)))
    ∧ (∀ (r n : Nat), (combinations r (List.range n)).Pairwise (List.Lex (· < ·))) := by
  refine ⟨findSumExamined_eq pool h2, combinations_sublist_length pool, ?_, ?_⟩
  · intro r
    have h := combinations_map (fun i => pool.getD i 0) (List.range pool.length) r
    rw [range_map_getD] at h
    exact h
  · intro r n
    exact combinations_pairwise_lex (List.range n) (List.pairwise_lt_range n) r

/-- Witness for C5: on the pool `[1, 2]` the loop examines exactly the empty
combination, the two singletons and the full pool, in this order. -/
theorem c5_amended_examined_sizes_witness :
    findSumExamined [(1 : ℚ), 2] = Except.ok [[], [1], [2], [1, 2]] :=
  ((c5_amended_examined_sizes [(1 : ℚ), 2] (by norm_num)).1).trans (by rfl)

/-! ## Claims about the table locators -/

/-- C2 counterexample. A summary table whose title cell reads
"Solde Date Montant" has both keywords in its full text, so the code's
`elif "Date" in text and "Montant" in text` branch classifies it as a
transaction table; the claim's predicate does not, because the header row
(the single cell "Solde Date Montant") contains neither the cell "Date"
nor the cell "Montant". -/
theorem c2_counterexample_fulltext_vs_header :
    ibkrClassified summaryTable = true ∧ specTransactionClaim summaryTable = false :=
  ⟨rfl, rfl⟩

/-- C2, amended: a table is classified as a transaction table if and only
if its full concatenated text contains the symbol keyword together with at
least one of the buy/sell/deposits/date keywords, or its FULL TEXT (not
its header row) contains both the date keyword and the amount keyword. -/
theorem c2_amended_classification_iff (t : HtmlTable) :
    ibkrClassified t = transactionFullTextPred t := by
  change (bif ibkrCond1 t then true else bif ibkrCond2 t then true else false)
    = transactionFullTextPred t
  rw [show transactionFullTextPred t = (ibkrCond1 t || ibkrCond2 t) from rfl]
  cases ibkrCond1 t <;> cases ibkrCond2 t <;> rfl

/-- C3. Every table whose full text contains a configured cash-movement
keyword and whose header row contains the three cells Date, Description
and Montant is classified as a cash-movement table and its data rows are
yielded. -/
theorem c3_cash_table_classified (t : HtmlTable) (r0 : List Cell) (rest : List (List Cell))
    (hk : cashKeywordHit t = true) (hr : t.rows = r0 :: rest)
    (hd : "Date" ∈ headerTexts r0) (hdesc : "Description" ∈ headerTexts r0)
    (hm : "Montant" ∈ headerTexts r0) :
    locateCash t = some (rest.map rowTdTexts) := by
  rw [locateCash, hk, hr]
  show (if "Date" ∈ headerTexts r0 ∧ "Description" ∈ headerTexts r0
          ∧ "Montant" ∈ headerTexts r0
        then some (rest.map rowTdTexts) else none) = some (rest.map rowTdTexts)
  rw [if_pos ⟨hd, hdesc, hm⟩]

/-- Witness for C3: the concrete deposit/withdrawal table is located and
its single data row is yielded. -/
theorem c3_cash_table_classified_witness :
    locateCash cashWitnessTable
      = some [["2025-03-01", "Transfert électronique", "5.00"]] :=
  c3_cash_table_classified cashWitnessTable
    [⟨"th", "Date"⟩, ⟨"th", "Description"⟩, ⟨"th", "Montant"⟩]
    [[⟨"td", "2025-03-01"⟩, ⟨"td", "Transfert électronique"⟩, ⟨"td", "5.00"⟩]]
    rfl rfl (by decide) (by decide) (by decide)

/-- C6. A table with zero rows yields no output in either locator, and the
run over the surrounding document is unchanged by its presence: processing
continues with the remaining tables. -/
theorem c6_zero_row_table_skipped (pre post : List HtmlTable) (t : HtmlTable)
    (h : t.rows = []) :
    locateCash t = none ∧ locateIbkr t = none ∧
    runCash (pre ++ t :: post) = runCash (pre ++ post) ∧
    runIbkr (pre ++ t :: post) = runIbkr (pre ++ post) := by
  have hc : locateCash t = none := by
    rw [locateCash, h]
    cases cashKeywordHit t <;> rfl
  have hi : locateIbkr t = none := by
    rw [locateIbkr, summarize_table, h]
    cases ibkrClassified t <;> rfl
  refine ⟨hc, hi, ?_, ?_⟩
  · simp [runCash, List.filterMap_append, List.filterMap_cons, hc]
  · simp [runIbkr, List.filterMap_append, List.filterMap_cons, hi]

/-- Witness for C6: a rowless table whose text matches every keyword is
skipped by both locators, and the neighbouring tables are still processed. -/
theorem c6_zero_row_table_skipped_witness :
    locateCash emptyRowTable = none ∧ locateIbkr emptyRowTable = none ∧
    runCash ([cashWitnessTable] ++ emptyRowTable :: [summaryTable])
      = runCash ([cashWitnessTable] ++ [summaryTable]) ∧
    runIbkr ([cashWitnessTable] ++ emptyRowTable :: [summaryTable])
      = runIbkr ([cashWitnessTable] ++ [summaryTable]) :=
  c6_zero_row_table_skipped [cashWitnessTable] [summaryTable] emptyRowTable rfl

/-- C9. Both locators, run with the document tree threaded through, hand
the tree back unchanged, and a second run over the returned tree produces
exactly the first run's output: the Locator is idempotent and mutates
nothing. -/
theorem c9_locator_idempotent (doc : List HtmlTable) :
    (runCashST doc).2 = doc
    ∧ (runCashST ((runCashST doc).2)).1 = (runCashST doc).1
    ∧ (runIbkrST doc).2 = doc
    ∧ (runIbkrST ((runIbkrST doc).2)).1 = (runIbkrST doc).1 :=
  ⟨rfl, rfl, rfl, rfl⟩

/-! ## Lemmas about the proxy's result dictionary -/

/-- Overwriting an existing key in place leaves that key's lookup at the
new value. -/
theorem lookup_replace_self (d : List (String × Json)) (k : String) (v : Json)
    (h : d.any (fun p => p.1 == k) = true) :
    (d.map (fun p => bif p.1 == k then (k, v) else p)).lookup k = some v := by
  induction d with
  | nil => simp at h
  | cons q rest ih =>
    by_cases hq : q.1 = k
    · have hqk : (q.1 == k) = true := beq_iff_eq.mpr hq
      simp [List.map_cons, hqk, List.lookup]
    · have hqk : (q.1 == k) = false := beq_eq_false_iff_ne.mpr hq
      have hkq : (k == q.1) = false := beq_eq_false_iff_ne.mpr (Ne.symm hq)
      have h' : rest.any (fun p => p.1 == k) = true := by
        rw [List.any_cons, hqk, Bool.false_or] at h
        exact h
      simp [List.map_cons, hqk, List.lookup, hkq, ih h']

/-- Overwriting key `k` does not change the lookup of another key. -/
theorem lookup_replace_ne (d : List (String × Json)) (k : String) (v : Json)
    (k' : String) (h : k' ≠ k) :
    (d.map (fun p => bif p.1 == k then (k, v) else p)).lookup k' = d.lookup k' := by
  induction d with
  | nil => rfl
  | cons q rest ih =>
    by_cases hq : q.1 = k
    · have h1 : (k' == k) = false := beq_eq_false_iff_ne.mpr h
      have h2 : (k' == q.1) = false := by rw [hq]; exact h1
      have hqk : (q.1 == k) = true := beq_iff_eq.mpr hq
      simp [List.map_cons, hqk, List.lookup, h1, h2, ih]
    · have hqk : (q.1 == k) = false := beq_eq_false_iff_ne.mpr hq
      by_cases hk'q : k' = q.1
      · have hb : (k' == q.1) = true := beq_iff_eq.mpr hk'q
        simp [List.map_cons, hqk, List.lookup, hb]
      · have hb : (k' == q.1) = false := beq_eq_false_iff_ne.mpr hk'q
        simp [List.map_cons, hqk, List.lookup, hb, ih]

/-- Appending a fresh key makes it findable. -/
theorem lookup_append_last (d : List (String × Json)) (k : String) (v : Json)
    (h : d.any (fun p => p.1 == k) = false) :
    (d ++ [(k, v)]).lookup k = some v := by
  induction d with
  | nil => simp [List.lookup]
  | cons q rest ih =>
    rw [List.any_cons] at h
    have h1 : (q.1 == k) = false := by
      cases hb : (q.1 == k) with
      | true => rw [hb] at h; simp at h
      | false => rfl
    have h2 : rest.any (fun p => p.1 == k) = false := by
      rw [h1, Bool.false_or] at h
      exact h
    have hkq : (k == q.1) = false := by
      rw [beq_eq_false_iff_ne] at h1 ⊢
      exact Ne.symm h1
    simp [List.cons_append, List.lookup, hkq, ih h2]

/-- Appending an entry keyed `k` does not change the lookup of another key. -/
theorem lookup_append_last_ne (d : List (String × Json)) (k : String) (v : Json)
    (k' : String) (h : k' ≠ k) :
    (d ++ [(k, v)]).lookup k' = d.lookup k' := by
  induction d with
  | nil =>
    have h1 : (k' == k) = false := beq_eq_false_iff_ne.mpr h
    simp [List.lookup, h1]
  | cons q rest ih =>
    by_cases hk'q : k' = q.1
    · have hb : (k' == q.1) = true := beq_iff_eq.mpr hk'q
      simp [List.cons_append, List.lookup, hb]
    · have hb : (k' == q.1) = false := beq_eq_false_iff_ne.mpr hk'q
      simp [List.cons_append, List.lookup, hb, ih]

/-- Python dict write `d[k] = v` makes `d[k]` read back `v`. -/
theorem lookup_dictInsert_self (d : List (String × Json)) (k : String) (v : Json) :
    (dictInsert d k v).lookup k = some v := by
  rw [dictInsert]
  cases h : d.any (fun p => p.1 == k) with
  | true =>
    rw [Bool.cond_true]
    exact lookup_replace_self d k v h
  | false =>
    rw [Bool.cond_false]
    exact lookup_append_last d k v h

/-- Python dict write `d[k] = v` leaves every other key unchanged. -/
theorem lookup_dictInsert_ne (d : List (String × Json)) (k : String) (v : Json)
    (k' : String) (h : k' ≠ k) :
    (dictInsert d k v).lookup k' = d.lookup k' := by
  rw [dictInsert]
  cases hA : d.any (fun p => p.1 == k) with
  | true =>
    rw [Bool.cond_true]
    exact lookup_replace_ne d k v k' h
  | false =>
    rw [Bool.cond_false]
    exact lookup_append_last_ne d k v k' h

/-- Filling the result dict over tickers not containing `t` leaves `t`'s
entry untouched. -/
theorem peResult_fold_not_mem (fetch : String → Except String (List (String × Json))) :
    ∀ (ts : List String) (d : List (String × Json)) (t : String), t ∉ ts →
      (ts.foldl (fun d u => dictInsert d u (peEntry fetch u)) d).lookup t = d.lookup t := by
  intro ts
  induction ts with
  | nil => intro d t _; rfl
  | cons u us ih =>
    intro d t ht
    rw [List.foldl_cons]
    have h1 : t ≠ u := fun he => ht (he ▸ List.mem_cons_self u us)
    have h2 : t ∉ us := fun hm => ht (List.mem_cons_of_mem u hm)
    rw [ih _ t h2, lookup_dictInsert_ne d u _ t h1]

/-- Every surviving ticker ends up in the result dict with its own entry. -/
theorem peResult_fold_mem (fetch : String → Except String (List (String × Json))) :
    ∀ (ts : List String) (d : List (String × Json)) (t : String), t ∈ ts →
      (ts.foldl (fun d u => dictInsert d u (peEntry fetch u)) d).lookup t
        = some (peEntry fetch t) := by
  intro ts
  induction ts with
  | nil => intro d t ht; exact absurd ht (List.not_mem_nil t)
  | cons u us ih =>
    intro d t ht
    rw [List.foldl_cons]
    by_cases hus : t ∈ us
    · exact ih _ t hus
    · have htu : t = u := by
        rcases List.mem_cons.mp ht with h | h
        · exact h
        · exact absurd h hus
      subst htu
      rw [peResult_fold_not_mem fetch us _ t hus, lookup_dictInsert_self]

/-! ## Claims about the HTTP proxy -/

/-- C7. When fetching one of the surviving tickers raises, the `/pe`
response still carries status 200 and holds, for that ticker, the entry
with all four fields null: per-ticker failures never become request-level
failures. -/
theorem c7_per_ticker_error_null_entry
    (fetch : String → Except String (List (String × Json))) (raw t e : String)
    (ht : t ∈ parseTickers raw) (he : fetch t = Except.error e) :
    (handle_pe fetch raw).status = 200 ∧
    getField (handle_pe fetch raw).body t = some nullPEEntry := by
  have hne : ¬ (parseTickers raw = []) := by
    intro h0
    rw [h0] at ht
    exact absurd ht (List.not_mem_nil t)
  have hval : peEntry fetch t = nullPEEntry := by
    rw [peEntry, he]
  constructor
  · rw [handle_pe, if_neg hne]
  · rw [handle_pe, if_neg hne]
    show (peResultDict fetch (parseTickers raw)).lookup t = some nullPEEntry
    rw [peResultDict, peResult_fold_mem fetch _ [] t ht, hval]

/-- Witness for C7: with an oracle that always raises, `/pe?tickers=BADSYMBOL`
answers 200 and maps BADSYMBOL to the all-null entry. -/
theorem c7_per_ticker_error_null_entry_witness :
    (handle_pe fetchAlwaysErr "BADSYMBOL").status = 200 ∧
    getField (handle_pe fetchAlwaysErr "BADSYMBOL").body "BADSYMBOL" = some nullPEEntry :=
  c7_per_ticker_error_null_entry fetchAlwaysErr "BADSYMBOL" "BADSYMBOL" "no data"
    (by decide) rfl

/-- C8. When the stripped `q` parameter is empty (covering a missing, empty
or whitespace-only parameter), `/search` answers 400 with an error body and
is independent of the upstream oracle: no upstream call influences it. -/
theorem c8_empty_query_400 (rawQ : String) (h : pystrip rawQ = "")
    (f g : String → Except String (List (List (String × Json)))) :
    handle_search f rawQ = handle_search g rawQ
    ∧ (handle_search f rawQ).status = 400
    ∧ getField (handle_search f rawQ).body "error" = some (Json.str "missing q param") := by
  have hf : handle_search f rawQ
      = ⟨400, Json.obj [("error", Json.str "missing q param")]⟩ := by
    rw [handle_search, if_pos h]
  have hg : handle_search g rawQ
      = ⟨400, Json.obj [("error", Json.str "missing q param")]⟩ := by
    rw [handle_search, if_pos h]
  refine ⟨hf.trans hg.symm, by rw [hf], by rw [hf]; rfl⟩

/-- Witness for C8: the whitespace-only query answers 400 with an error
body under a failing and a succeeding oracle alike. -/
theorem c8_empty_query_400_witness :
    handle_search searchOracleDown " " = handle_search searchOracleUp " "
    ∧ (handle_search searchOracleDown " ").status = 400
    ∧ getField (handle_search searchOracleDown " ").body "error"
        = some (Json.str "missing q param") :=
  c8_empty_query_400 " " (by decide) searchOracleDown searchOracleUp

/-- Overwriting a key in place does not change the key sequence. -/
theorem keys_replace (d : List (String × Json)) (k : String) (v : Json) :
    (d.map (fun p => bif p.1 == k then (k, v) else p)).map (fun p => p.1)
      = d.map (fun p => p.1) := by
  rw [List.map_map]
  apply List.map_congr_left
  intro p _
  by_cases hp : p.1 = k
  · have hb : (p.1 == k) = true := beq_iff_eq.mpr hp
    simp [Function.comp, hb, hp]
  · have hb : (p.1 == k) = false := beq_eq_false_iff_ne.mpr hp
    simp [Function.comp, hb]

/-- The key sequence after a Python dict write: unchanged when the key was
present, extended at the end when it was fresh. -/
theorem keys_dictInsert (d : List (String × Json)) (k : String) (v : Json) :
    (dictInsert d k v).map (fun p => p.1)
      = if k ∈ d.map (fun p => p.1) then d.map (fun p => p.1)
        else d.map (fun p => p.1) ++ [k] := by
  by_cases h : k ∈ d.map (fun p => p.1)
  · have hA : d.any (fun p => p.1 == k) = true := by
      rw [List.any_eq_true]
      rcases List.mem_map.mp h with ⟨p, hp, hpk⟩
      exact ⟨p, hp, beq_iff_eq.mpr hpk⟩
    rw [if_pos h, dictInsert, hA, Bool.cond_true, keys_replace]
  · have hA : d.any (fun p => p.1 == k) = false := by
      cases hb : d.any (fun p => p.1 == k) with
      | false => rfl
      | true =>
        rw [List.any_eq_true] at hb
        rcases hb with ⟨p, hp, hpk⟩
        exact absurd (List.mem_map.mpr ⟨p, hp, beq_iff_eq.mp hpk⟩) h
    rw [if_neg h, dictInsert, hA, Bool.cond_false, List.map_append]
    rfl

/-- `dedupSeen` depends on the seen accumulator only through membership. -/
theorem dedupSeen_congr :
    ∀ (ts s1 s2 : List String), (∀ x, x ∈ s1 ↔ x ∈ s2) →
      dedupSeen ts s1 = dedupSeen ts s2 := by
  intro ts
  induction ts with
  | nil => intro s1 s2 _; rfl
  | cons t ts ih =>
    intro s1 s2 hiff
    simp only [dedupSeen]
    by_cases h : t ∈ s1
    · rw [if_pos h, if_pos ((hiff t).mp h)]
      exact ih s1 s2 hiff
    · rw [if_neg h, if_neg (fun hc => h ((hiff t).mpr hc))]
      have hcons : ∀ x, x ∈ t :: s1 ↔ x ∈ t :: s2 := by
        intro x
        simp [List.mem_cons, hiff x]
      rw [ih (t :: s1) (t :: s2) hcons]

/-- The key sequence of the result dict built over a ticker list is the
first-occurrence deduplication of that list past the starting keys. -/
theorem keys_fold (fetch : String → Except String (List (String × Json))) :
    ∀ (ts : List String) (d : List (String × Json)),
      ((ts.foldl (fun d u => dictInsert d u (peEntry fetch u)) d).map (fun p => p.1))
        = d.map (fun p => p.1) ++ dedupSeen ts (d.map (fun p => p.1)) := by
  intro ts
  induction ts with
  | nil => intro d; simp [dedupSeen]
  | cons t ts ih =>
    intro d
    rw [List.foldl_cons, ih, keys_dictInsert]
    by_cases h : t ∈ d.map (fun p => p.1)
    · rw [if_pos h]
      simp only [dedupSeen]
      rw [if_pos h]
    · rw [if_neg h]
      simp only [dedupSeen]
      rw [if_neg h]
      have hcong : dedupSeen ts (d.map (fun p => p.1) ++ [t])
          = dedupSeen ts (t :: d.map (fun p => p.1)) := by
        apply dedupSeen_congr
        intro x
        simp [or_comm]
      rw [hcong]
      simp [List.append_assoc]

/-- C10 counterexample. The claim promises exactly one response entry per
surviving segment; with `tickers=A,A` two segments survive but the Python
dict collapses them into a single entry. -/
theorem c10_counterexample_duplicate_tickers :
    parseTickers "A,A" = ["A", "A"]
    ∧ objKeys (handle_pe fetchAlwaysErr "A,A").body = ["A"] :=
  ⟨rfl, rfl⟩

/-- C10, amended: the effective ticker list splits the raw parameter on
commas, trims each segment and drops the empty ones; an empty result gives
status 400 with an error body, and otherwise the response carries status
200 with exactly one entry per DISTINCT surviving segment, in first-
occurrence order (duplicate segments collapse onto one dict entry). -/
theorem c10_amended_tickers_parsing
    (fetch : String → Except String (List (String × Json))) (raw : String) :
    (parseTickers raw = [] →
      (handle_pe fetch raw).status = 400 ∧
      getField (handle_pe fetch raw).body "error" = some (Json.str "missing tickers param"))
    ∧ (parseTickers raw ≠ [] →
      (handle_pe fetch raw).status = 200 ∧
      objKeys (handle_pe fetch raw).body = dedupFirst (parseTickers raw)) := by
  constructor
  · intro h
    rw [handle_pe, if_pos h]
    exact ⟨rfl, rfl⟩
  · intro h
    rw [handle_pe, if_neg h]
    refine ⟨rfl, ?_⟩
    show (peResultDict fetch (parseTickers raw)).map (fun p => p.1)
      = dedupFirst (parseTickers raw)
    rw [peResultDict, keys_fold fetch (parseTickers raw) [], dedupFirst]
    rfl

/-- Witness for C10: `tickers=A, ,B` survives as `["A", "B"]` and the
response carries one entry per distinct ticker, status 200. -/
theorem c10_amended_tickers_parsing_witness :
    parseTickers "A, ,B" ≠ []
    ∧ ((handle_pe fetchAlwaysErr "A, ,B").status = 200
      ∧ objKeys (handle_pe fetchAlwaysErr "A, ,B").body
          = dedupFirst (parseTickers "A, ,B")) :=
  ⟨by decide, (c10_amended_tickers_parsing fetchAlwaysErr "A, ,B").2 (by decide)⟩
